import Mathlib

/-!
Verification of the multi-server dispatch and result-fusion layer of a
kakoune LSP broker, shallowly embedded from the Rust sources
(`src/diagnostics.rs` and `src/language_features/*.rs`).

Conventions of the embedding:
* Rust `HashMap` caches keyed by strings become Lean functions
  `String → …` updated pointwise (a `HashMap::insert` replaces the whole
  entry for the key, a `remove` maps it to the empty value).
* Server identifiers (`ServerId` / `LanguageId`) are opaque in the code and
  are embedded as `Nat`.
* `lsp_types::DiagnosticSeverity` is a newtype over `i32`
  (ERROR = 1, WARNING = 2, INFORMATION = 3, HINT = 4) and is embedded as
  `Nat`; other values are the "unknown severity" cases.
* Position-conversion helpers (`lsp_position_to_kakoune`,
  `kakoune_position_to_lsp`, …) live in `src/position.rs`, which is not
  among the sources here; they enter the model as explicit function
  parameters, so every theorem holds for an arbitrary conversion.
* Rendering of final command strings (quoting, `%opt[…]` expansion,
  glyph-width probing) is kept only where a claim is about the rendered
  text; otherwise an emission is modelled by the data it is built from.
-/

namespace KakouneLsp

/-- Insert `x` into `l` after every element `y` with `le y x`: the
insertion step of a stable insertion sort. -/
def insertSorted {α : Type} (le : α → α → Bool) (x : α) : List α → List α
  | [] => [x]
  | y :: ys => if le y x then y :: insertSorted le x ys else x :: y :: ys

/-- Stable insertion sort, processing the input left to right. A stable
sort is uniquely determined by its comparator, so this embeds Rust's
stable `slice::sort_by_key`; where the source uses `sorted_unstable_by_key`
the embedding fixes one of the orders that sort is allowed to produce, and
the claims proved about it do not depend on the order of equal keys. -/
def stableSortBy {α : Type} (le : α → α → Bool) (l : List α) : List α :=
  l.foldl (fun acc x => insertSorted le x acc) []

/-- LSP position: 0-based `line` and `character` (code units counted under
the owning server's offset encoding), as in `lsp_types::Position`. -/
structure Pos where
  line : Nat
  character : Nat
deriving DecidableEq, Repr

/-- LSP range, as in `lsp_types::Range`. The source field `end` is a Lean
keyword and is embedded as `endPos`. -/
structure Range where
  start : Pos
  endPos : Pos
deriving DecidableEq, Repr

/-- Opaque server identifier (`ServerId` / `LanguageId` in the sources). -/
abbrev ServerId := Nat

/-- A single diagnostic as consumed by this layer: its range, its optional
severity code, and its message (`lsp_types::Diagnostic`, restricted to the
fields the embedded functions read). -/
structure Diagnostic where
  range : Range
  severity : Option Nat
  message : String
deriving DecidableEq, Repr

/-- The command carried by a resolved code lens (`lsp_types::Command`,
restricted to the fields read here). -/
structure LensCommand where
  title : String
  command : String
deriving DecidableEq, Repr

/-- A code lens entry (`lsp_types::CodeLens`, restricted to the fields the
embedded functions read). -/
structure CodeLens where
  range : Range
  command : Option LensCommand
deriving DecidableEq, Repr

/-- An opened buffer snapshot: its text as a list of lines and its version
(`Document` in the document store). -/
structure Document where
  text : List String
  version : Int
deriving DecidableEq

/-- Editor-side position: 1-based line and byte column
(`KakounePosition` in the sources). -/
structure KakounePosition where
  line : Nat
  column : Nat
deriving DecidableEq, Repr

/-- Per-server offset encoding. Modelled from the spec: the concrete enum
lives in `src/types.rs`, which is not among the sources; the spec fixes the
three variants utf-8, utf-16 and utf-32. -/
inductive OffsetEncoding
  | utf8
  | utf16
  | utf32
deriving DecidableEq, Repr

/-! ## Diagnostics (`src/diagnostics.rs`) -/

/-- Embeds the cache update at the top of `publish_diagnostics`:
`ctx.diagnostics.insert(buffile.to_string(), params.diagnostics.map(|d| (language_id, d)))`.
A `HashMap::insert` replaces the whole entry stored under `buffile`. -/
def publish_diagnostics_cache (cache : String → List (ServerId × Diagnostic))
    (buffile : String) (server : ServerId) (ds : List Diagnostic) :
    String → List (ServerId × Diagnostic) :=
  fun b => if b = buffile then ds.map (fun d => (server, d)) else cache b

/-- Embeds the derived `Ord` on `Option<DiagnosticSeverity>` used as the
sort key for `lsp_inline_diagnostics`: `None` orders before every `Some`,
and two severities compare by their numeric code. -/
def sevKeyLe : Option Nat → Option Nat → Bool
  | none, _ => true
  | some _, none => false
  | some a, some b => decide (a ≤ b)

/-- Embeds the face chosen for an inline diagnostic in
`publish_diagnostics`: ERROR, HINT, INFORMATION and WARNING map to their
faces, a missing severity and an unrecognized severity both fall back to
the warning face. -/
def inline_diagnostic_face : Option Nat → String
  | some 1 => "DiagnosticError"
  | some 4 => "DiagnosticHint"
  | some 3 => "DiagnosticInfo"
  | some 2 => "DiagnosticWarning"
  | none => "DiagnosticWarning"
  | some _ => "DiagnosticWarning"

/-- Embeds the ordering of the `lsp_inline_diagnostics` entries in
`publish_diagnostics`:
`diagnostics.iter().sorted_unstable_by_key(|(_, x)| x.severity).rev()`.
Each resulting entry renders as `"<range>|<face>"`; the range text comes
from `lsp_range_to_kakoune` (`src/position.rs`, outside these sources) and
does not affect the ordering, so the embedding keeps the ordered entries
themselves. -/
def inline_diagnostics_order (ds : List (ServerId × Diagnostic)) :
    List (ServerId × Diagnostic) :=
  (stableSortBy (fun a b => sevKeyLe a.2.severity b.2.severity) ds).reverse

/-- Embeds the per-diagnostic match in `gather_line_flags` that picks the
line-flag label: known severities yield their face-tagged sign, a missing
severity yields the warning sign, and an unrecognized severity yields the
empty label. -/
def line_flag_label : Option Nat → String
  | some 1 => "{LineFlagError}%opt[lsp_diagnostic_line_error_sign]"
  | some 4 => "{LineFlagHint}%opt[lsp_diagnostic_line_hint_sign]"
  | some 3 => "{LineFlagInfo}%opt[lsp_diagnostic_line_info_sign]"
  | some 2 => "{LineFlagWarning}%opt[lsp_diagnostic_line_warning_sign]"
  | none => "{LineFlagWarning}%opt[lsp_diagnostic_line_warning_sign]"
  | some _ => ""

/-- Embeds the counter increments performed while `gather_line_flags`
consumes the diagnostics iterator, as the quadruple
(error, hint, info, warning): ERROR, HINT, INFORMATION and WARNING (or a
missing severity) each bump their counter, an unrecognized severity bumps
none. -/
def severity_counts : List (ServerId × Diagnostic) → Nat × Nat × Nat × Nat
  | [] => (0, 0, 0, 0)
  | p :: ps =>
    let (e, h, i, w) := severity_counts ps
    match p.2.severity with
    | some 1 => (e + 1, h, i, w)
    | some 4 => (e, h + 1, i, w)
    | some 3 => (e, h, i + 1, w)
    | some 2 => (e, h, i, w + 1)
    | none => (e, h, i, w + 1)
    | some _ => (e, h, i, w)

/-- Embeds `itertools::merge_join_by` as used in `gather_line_flags`,
already composed with the match that keeps the left (diagnostic) element
of an `EitherOrBoth::Both`: heads are compared by line number, the smaller
side advances, and on a tie both advance while the diagnostic label wins.
Phrased as structural recursion on the left list: for each left head, the
run of right elements with strictly smaller line is emitted first, then the
left element, dropping a tying right element. -/
def mergeJoinFlags : List (Nat × String) → List (Nat × String) → List (Nat × String)
  | [], rs => rs
  | l :: ls, rs =>
    let smaller := rs.takeWhile (fun r => r.1 < l.1)
    match rs.dropWhile (fun r => r.1 < l.1) with
    | [] => smaller ++ l :: ls
    | r :: rest =>
      if l.1 < r.1 then smaller ++ l :: mergeJoinFlags ls (r :: rest)
      else smaller ++ l :: mergeJoinFlags ls rest

/-- Result of `gather_line_flags`: the serialised line-flags string and the
four severity counters. -/
structure LineFlags where
  flags : String
  errorCount : Nat
  hintCount : Nat
  infoCount : Nat
  warningCount : Nat
deriving DecidableEq, Repr

/-- Embeds `gather_line_flags`: code-lens marks contribute
`%opt[lsp_code_lens_sign]` at their start line, diagnostics contribute
`line_flag_label` at theirs while bumping `severity_counts`; the two
streams are merged by line with the diagnostic label winning on a shared
line, and each entry is serialised `'<line+1>|<label>'`, space-joined. -/
def gather_line_flags (diags : List (ServerId × Diagnostic))
    (lenses : List (ServerId × CodeLens)) : LineFlags :=
  let lensEntries := lenses.map (fun p => (p.2.range.start.line, "%opt[lsp_code_lens_sign]"))
  let diagEntries := diags.map (fun p => (p.2.range.start.line, line_flag_label p.2.severity))
  let merged := mergeJoinFlags diagEntries lensEntries
  let (e, h, i, w) := severity_counts diags
  { flags := String.intercalate " "
      (merged.map (fun p => "'" ++ toString (p.1 + 1) ++ "|" ++ p.2 ++ "'"))
    errorCount := e
    hintCount := h
    infoCount := i
    warningCount := w }

/-! ## Goto family (`src/language_features/goto.rs`) -/

/-- A resolved location (`lsp_types::Location`): target file and range. -/
structure Location where
  uri : String
  range : Range
deriving DecidableEq, Repr

/-- A location link (`lsp_types::LocationLink`), restricted to the fields
destructured in `goto`. -/
structure LocationLink where
  target_uri : String
  target_selection_range : Range
deriving DecidableEq, Repr

/-- `lsp_types::GotoDefinitionResponse`, shared by the whole goto family. -/
inductive GotoDefinitionResponse
  | scalar (l : Location)
  | array (ls : List Location)
  | link (ls : List LocationLink)
deriving DecidableEq, Repr

/-- Embeds the normalisation at the top of `goto`: a scalar becomes a
singleton, an array is kept, and each link contributes
`Location { uri: target_uri, range: target_selection_range }`. -/
def goto_response_locations : GotoDefinitionResponse → List Location
  | .scalar l => [l]
  | .array ls => ls
  | .link ls => ls.map (fun lk => ⟨lk.target_uri, lk.target_selection_range⟩)

/-- Embeds the `goto` entry point at the granularity the fusion claims
need: `None` returns early, an empty location list does nothing, and
otherwise the named server and its locations are handed to
`goto_location` / `goto_locations` (whose rendering is modelled
separately). The value is the `(server, locations)` pair acted upon, or
`none` when `goto` emits nothing through them. -/
def goto (server_name : ServerId) (result : Option GotoDefinitionResponse) :
    Option (ServerId × List Location) :=
  match result with
  | none => none
  | some resp =>
    match goto_response_locations resp with
    | [] => none
    | locs => some (server_name, locs)

/-- Embeds the shared continuation of `text_document_definition` and its
siblings: `results.into_iter().find(|(_, v)| v.is_some())`, falling back to
`(first registered server, None)` when every response is `None`. -/
def goto_first_some (first_server : ServerId)
    (results : List (ServerId × Option GotoDefinitionResponse)) :
    ServerId × Option GotoDefinitionResponse :=
  match results.find? (fun p => p.2.isSome) with
  | some r => r
  | none => (first_server, none)

/-- Embeds the whole goto-family continuation: select a result with
`goto_first_some`, then run `goto` on it. -/
def goto_continuation (first_server : ServerId)
    (results : List (ServerId × Option GotoDefinitionResponse)) :
    Option (ServerId × List Location) :=
  let r := goto_first_some first_server results
  goto r.1 r.2

/-- Modelled from the spec: `short_file_path` (`src/util.rs` is not among
the sources) presents a path relative to the root path when the root is a
prefix of it. The claims never inspect its output beyond equality of equal
inputs. -/
def short_file_path (path root : String) : String :=
  if root.data.isPrefixOf path.data then
    ⟨(path.data.drop root.data.length).dropWhile (· = '/')⟩
  else path

/-- One entry of the `lsp-show-goto-choices` list:
`<short_path>:<line>:<column>:<line-text>` in the sources, kept here as a
structure. -/
structure GotoEntry where
  path : String
  line : Nat
  column : Nat
  text : String
deriving DecidableEq, Repr

/-- Embeds `itertools::group_by` as applied to the locations iterator in
`goto_locations`: it groups maximal runs of consecutive elements whose key
(the target file path) is equal. -/
def chunk_by_uri : List Location → List (List Location)
  | [] => []
  | l :: ls =>
    match chunk_by_uri ls with
    | [] => [[l]]
    | [] :: gs => [l] :: [] :: gs
    | (x :: g) :: gs =>
      if l.uri = x.uri then (l :: x :: g) :: gs else [l] :: (x :: g) :: gs

/-- Embeds the body mapped over one group in `goto_locations`: fetch the
group's file once (an unreadable file contributes nothing), then emit one
entry per location, dropping a location whose 0-based start line is not
below the file's line count. `conv` stands for `lsp_range_to_kakoune`
composed with `.start` (`src/position.rs` is outside these sources). -/
def goto_group_entries (conv : Range → List String → KakounePosition)
    (files : String → Option (List String)) (root_path : String) :
    List Location → List GotoEntry
  | [] => []
  | l₀ :: rest =>
    match files l₀.uri with
    | none => []
    | some contents =>
      (l₀ :: rest).filterMap (fun l =>
        let pos := conv l.range contents
        if l.range.start.line ≥ contents.length then none
        else some ⟨short_file_path l₀.uri root_path, pos.line, pos.column,
          contents.getD l.range.start.line ""⟩)

/-- Embeds the entry list built by `goto_locations` (the source joins the
entries into one string; dropped locations contribute the empty string,
which the list model represents by omission). -/
def goto_locations_entries (conv : Range → List String → KakounePosition)
    (files : String → Option (List String)) (root_path : String)
    (locations : List Location) : List GotoEntry :=
  (chunk_by_uri locations).flatMap (goto_group_entries conv files root_path)

/-! ## Code actions (`src/language_features/code_action.rs`) -/

/-- Modelled from the spec: `EOL_OFFSET` (`src/position.rs` is not among
the sources) is a sentinel column meaning one past end of line. The
claims only ever compare a character against it for equality, so the
concrete value is immaterial. -/
def EOL_OFFSET : Nat := 1000000

/-- `lsp_types::CodeActionOrCommand`, restricted to the fields the
continuation reads: a bare command, or a code action with its optional
kind, optional workspace edit (kept as its serialised form) and optional
command. -/
inductive CodeActionOrCommand
  | command (title : String) (cmd : String)
  | codeAction (title : String) (kind : Option String) (edit : Option String)
      (cmd : Option String)
deriving DecidableEq, Repr

/-- Embeds the title projection used for regex filtering. -/
def ca_title : CodeActionOrCommand → String
  | .command title _ => title
  | .codeAction title _ _ _ => title

/-- Embeds the sort key of `actions.sort_by_key` in `editor_code_actions`:
a bare command and an action without kind use the empty kind, then the
fixed bucket table applies with unrecognized kinds mapping to the last
bucket. -/
def ca_kind_bucket (ca : CodeActionOrCommand) : Nat :=
  let kind := match ca with
    | .command _ _ => ""
    | .codeAction _ kind _ _ => kind.getD ""
  if kind = "quickfix" then 0
  else if kind = "refactor" then 1
  else if kind = "refactor.extract" then 2
  else if kind = "refactor.inline" then 3
  else if kind = "refactor.rewrite" then 4
  else if kind = "source" then 5
  else if kind = "source.organizeImports" then 6
  else 7

/-- The code-action filter carried in the editor parameters. A regex is an
external engine; the embedding carries its compiled matcher, with `none`
standing for a pattern that failed to compile. -/
inductive CodeActionFilter
  | byKind (kinds : List String)
  | byRegex (matcher : Option (String → Bool))

/-- The parameters of `editor_code_actions` that steer the continuation. -/
structure CAParams where
  filters : Option CodeActionFilter
  autoSingle : Bool
  performCodeAction : Bool

/-- The observable outcome of `editor_code_actions`: a re-dispatch with
widened ranges, a dropped reply (missing or stale document), or one of the
emitted editor scripts, carried as the data it is rendered from. -/
inductive CAOutcome
  | retry (version : Int) (ranges : List (ServerId × Range))
  | dropMissingDoc
  | dropStale
  | errorInvalidPattern
  | execSingle (server : ServerId) (action : CodeActionOrCommand)
  | errorNoMatching
  | errorMultiple
  | errorNoActions
  | hideActions
  | showActions (autoSingle : Bool) (actions : List (ServerId × CodeActionOrCommand))
  | performActions (actions : List (ServerId × CodeActionOrCommand))
deriving DecidableEq, Repr

/-- Embeds the retry guard of `editor_code_actions`: not from a hook, and
every response is `Some(vec![])` while its requested range has a non-zero
start character and an end character that is not the end-of-line sentinel;
a server with no registered range does not influence the decision. -/
def ca_retry_condition (hook : Bool) (ranges : List (ServerId × Range))
    (results : List (ServerId × Option (List CodeActionOrCommand))) : Bool :=
  !hook && results.all (fun p =>
    match ranges.lookup p.1 with
    | some range =>
      decide (p.2 = some []) && decide (range.start.character ≠ 0)
        && decide (range.endPos.character ≠ EOL_OFFSET)
    | none => true)

/-- Embeds the widening loop of `editor_code_actions`: every range keeps
its lines, the start character becomes 0, and the end character becomes the
byte length of the end line converted to the server's offset encoding.
`k2l` stands for `kakoune_position_to_lsp` (`src/position.rs` is outside
these sources). -/
def widen_ranges (k2l : KakounePosition → List String → OffsetEncoding → Pos)
    (encOf : ServerId → OffsetEncoding) (document : Document)
    (ranges : List (ServerId × Range)) : List (ServerId × Range) :=
  ranges.map (fun p =>
    let line := document.text.getD p.2.endPos.line ""
    (p.1,
      { start := { line := p.2.start.line, character := 0 }
        endPos := { line := p.2.endPos.line
                    character := (k2l { line := p.2.endPos.line + 1, column := line.utf8ByteSize }
                      document.text (encOf p.1)).character } }))

/-- Embeds the flattening of the per-server results into the collected
`(server, action)` list. -/
def ca_collect (results : List (ServerId × Option (List CodeActionOrCommand))) :
    List (ServerId × CodeActionOrCommand) :=
  results.flatMap (fun p => (p.2.getD []).map (fun c => (p.1, c)))

/-- Embeds the match on `actions.len()` in the synchronous / regex-filtered
arm: no matching action, exactly one (executed directly), or several. -/
def ca_single_path (actions : List (ServerId × CodeActionOrCommand)) : CAOutcome :=
  match actions with
  | [] => .errorNoMatching
  | [a] => .execSingle a.1 a.2
  | _ => .errorMultiple

/-- Embeds the stable `actions.sort_by_key` over the kind buckets
(`slice::sort_by_key` is a stable sort; a stable sort by a key is uniquely
determined, so merge sort by the same key is the same function). -/
def sort_code_actions (actions : List (ServerId × CodeActionOrCommand)) :
    List (ServerId × CodeActionOrCommand) :=
  stableSortBy (fun a b => decide (ca_kind_bucket a.2 ≤ ca_kind_bucket b.2)) actions

/-- Embeds everything after the retry guard of `editor_code_actions`:
collect the actions; in the synchronous or regex-filtered arm, report an
invalid pattern, filter by title and dispatch on the match count;
otherwise sort by bucket and emit hide/show (or the perform variant). -/
def ca_emit_path (sync : Bool) (params : CAParams)
    (results : List (ServerId × Option (List CodeActionOrCommand))) : CAOutcome :=
  let actions := ca_collect results
  if sync || (match params.filters with | some (.byRegex _) => true | _ => false) then
    match params.filters with
    | some (.byRegex none) => .errorInvalidPattern
    | some (.byRegex (some m)) => ca_single_path (actions.filter (fun p => m (ca_title p.2)))
    | _ => ca_single_path actions
  else
    let sorted := sort_code_actions actions
    if params.performCodeAction then
      if sorted.isEmpty then .errorNoActions else .performActions sorted
    else
      if sorted.isEmpty then .hideActions else .showActions params.autoSingle sorted

/-- Embeds `editor_code_actions`: when the retry guard holds, a missing
document drops the reply, a stale document drops the reply, and otherwise
the request is re-issued with widened ranges; when the guard fails, the
emit path runs without consulting the document store. -/
def editor_code_actions (k2l : KakounePosition → List String → OffsetEncoding → Pos)
    (encOf : ServerId → OffsetEncoding) (docs : String → Option Document)
    (hook : Bool) (buffile : String) (sync : Bool) (params : CAParams) (version : Int)
    (ranges : List (ServerId × Range))
    (results : List (ServerId × Option (List CodeActionOrCommand))) : CAOutcome :=
  if ca_retry_condition hook ranges results then
    match docs buffile with
    | none => .dropMissingDoc
    | some document =>
      if document.version ≠ version then .dropStale
      else .retry version (widen_ranges k2l encOf document ranges)
  else
    ca_emit_path sync params results

/-! ## Range formatting (`src/language_features/range_formatting.rs`) -/

/-- A text edit (`lsp_types::TextEdit`); its application lives in
`src/text_edit.rs`, outside these sources, so the claims treat the applier
as a parameter. -/
structure TextEdit where
  range : Range
  newText : String
deriving DecidableEq, Repr

/-- Embeds `editor_range_formatting`: look up the buffer, apply the edits
(`apply_text_edits_to_buffer`, a parameter here since `src/text_edit.rs` is
outside these sources), and emit the produced command, or exactly the
script `nop` when there is none — a total function, so exactly one command
is emitted on every path. -/
def editor_range_formatting
    (apply_text_edits_to_buffer : List TextEdit → List String → OffsetEncoding → Option String)
    (encOf : ServerId → OffsetEncoding) (docs : String → Option Document)
    (buffile : String) (server_name : ServerId) (text_edits : List TextEdit) : String :=
  match (docs buffile).bind
      (fun document => apply_text_edits_to_buffer text_edits document.text (encOf server_name)) with
  | some cmd => cmd
  | none => "nop"

/-! ## Code lens (`src/language_features/code_lens.rs`) -/

/-- Embeds the derived lexicographic `Ord` on `lsp_types::Position` used by
`lenses.sort_by_key(|(_, lens)| lens.range.start)`. -/
def pos_le (a b : Pos) : Bool :=
  decide (a.line < b.line) || (decide (a.line = b.line) && decide (a.character ≤ b.character))

/-- Embeds `editor_code_lens`: flatten the per-server results, sort by
start position, and — when the buffer is gone from the document store —
remove its cache entry and emit nothing; otherwise store the sorted lenses
and emit the render built from them (the rendered inlay strings use the
position conversion of `src/position.rs`, outside these sources, so the
emission is carried as the lens list it is built from). The value is the
updated cache paired with the optional emission. -/
def editor_code_lens (docs : String → Option Document)
    (code_lenses : String → Option (List (ServerId × CodeLens))) (buffile : String)
    (results : List (ServerId × Option (List CodeLens))) :
    (String → Option (List (ServerId × CodeLens))) × Option (List (ServerId × CodeLens)) :=
  let lenses := stableSortBy (fun a b => pos_le a.2.range.start b.2.range.start)
    (results.flatMap (fun p => (p.2.getD []).map (fun v => (p.1, v))))
  match docs buffile with
  | none => (fun b => if b = buffile then none else code_lenses b, none)
  | some _ => (fun b => if b = buffile then some lenses else code_lenses b, some lenses)

/-! ## Lemmas about the stable sort -/

theorem insertSorted_perm {α : Type} (le : α → α → Bool) (x : α) (l : List α) :
    (insertSorted le x l).Perm (x :: l) := by
  induction l with
  | nil => exact List.Perm.refl _
  | cons y ys ih =>
    simp only [insertSorted]
    split
    · exact (ih.cons y).trans (List.Perm.swap x y ys)
    · exact List.Perm.refl _

theorem stableSortBy_foldl_perm {α : Type} (le : α → α → Bool) :
    ∀ (l acc : List α), (l.foldl (fun acc x => insertSorted le x acc) acc).Perm (acc ++ l) := by
  intro l
  induction l with
  | nil => intro acc; simp
  | cons x l ih =>
    intro acc
    simp only [List.foldl_cons]
    exact (ih (insertSorted le x acc)).trans
      (((insertSorted_perm le x acc).append_right l).trans List.perm_middle.symm)

theorem stableSortBy_perm {α : Type} (le : α → α → Bool) (l : List α) :
    (stableSortBy le l).Perm l := by
  simpa using stableSortBy_foldl_perm le l []

theorem insertSorted_pairwise {α : Type} {le : α → α → Bool}
    (htot : ∀ a b, (le a b || le b a) = true)
    (htrans : ∀ a b c, le a b = true → le b c = true → le a c = true)
    (x : α) : ∀ {l : List α}, l.Pairwise (fun a b => le a b = true) →
    (insertSorted le x l).Pairwise (fun a b => le a b = true) := by
  intro l
  induction l with
  | nil => intro _; simp [insertSorted]
  | cons y ys ih =>
    intro hl
    rcases List.pairwise_cons.mp hl with ⟨hy, hys⟩
    simp only [insertSorted]
    split
    case isTrue h =>
      refine List.pairwise_cons.mpr ⟨?_, ih hys⟩
      intro z hz
      rcases List.mem_cons.mp ((insertSorted_perm le x ys).mem_iff.mp hz) with rfl | hzys
      · exact h
      · exact hy z hzys
    case isFalse h =>
      have hxy : le x y = true := by
        rcases Bool.or_eq_true_iff.mp (htot y x) with h' | h'
        · exact absurd h' h
        · exact h'
      refine List.pairwise_cons.mpr ⟨?_, hl⟩
      intro z hz
      rcases List.mem_cons.mp hz with rfl | hzys
      · exact hxy
      · exact htrans x y z hxy (hy z hzys)

theorem stableSortBy_pairwise {α : Type} {le : α → α → Bool}
    (htot : ∀ a b, (le a b || le b a) = true)
    (htrans : ∀ a b c, le a b = true → le b c = true → le a c = true)
    (l : List α) : (stableSortBy le l).Pairwise (fun a b => le a b = true) := by
  suffices h : ∀ (l acc : List α), acc.Pairwise (fun a b => le a b = true) →
      (l.foldl (fun acc x => insertSorted le x acc) acc).Pairwise (fun a b => le a b = true) by
    exact h l [] (by simp)
  intro l
  induction l with
  | nil => intro acc hacc; simpa using hacc
  | cons x l ih =>
    intro acc hacc
    simp only [List.foldl_cons]
    exact ih _ (insertSorted_pairwise htot htrans x hacc)

theorem filter_insertSorted_neg {α : Type} (le : α → α → Bool) (p : α → Bool) (x : α)
    (hx : p x = false) : ∀ l : List α,
    (insertSorted le x l).filter p = l.filter p := by
  intro l
  induction l with
  | nil => simp [insertSorted, hx]
  | cons y ys ih =>
    simp only [insertSorted]
    split
    · simp [List.filter_cons, ih]
    · simp [List.filter_cons, hx]

theorem filter_insertSorted_pos {α : Type} (key : α → Nat) (b : Nat) (x : α)
    (hx : key x = b) : ∀ {l : List α},
    l.Pairwise (fun a c => decide (key a ≤ key c) = true) →
    (insertSorted (fun a c => decide (key a ≤ key c)) x l).filter (fun a => decide (key a = b))
      = l.filter (fun a => decide (key a = b)) ++ [x] := by
  intro l
  induction l with
  | nil => intro _; simp [insertSorted, hx]
  | cons y ys ih =>
    intro hl
    rcases List.pairwise_cons.mp hl with ⟨hy, hys⟩
    simp only [insertSorted]
    split
    case isTrue h =>
      cases hpy : decide (key y = b) <;>
        simp_all [List.filter_cons, ih hys]
    case isFalse h =>
      have h' : ¬ key y ≤ key x := by simpa using h
      have hnil : (y :: ys).filter (fun a => decide (key a = b)) = [] := by
        refine List.filter_eq_nil_iff.mpr ?_
        intro a ha
        rcases List.mem_cons.mp ha with rfl | hays
        · simp only [decide_eq_true_eq]
          omega
        · have hya : key y ≤ key a := by simpa using hy a hays
          simp only [decide_eq_true_eq]
          omega
      simp [List.filter_cons, hx, hnil]

theorem keyLe_total {α : Type} (key : α → Nat) (a b : α) :
    (decide (key a ≤ key b) || decide (key b ≤ key a)) = true := by
  simp
  omega

theorem keyLe_trans {α : Type} (key : α → Nat) (a b c : α) :
    decide (key a ≤ key b) = true → decide (key b ≤ key c) = true →
    decide (key a ≤ key c) = true := by
  simp
  omega

theorem filter_stableSortBy {α : Type} (key : α → Nat) (b : Nat) (l : List α) :
    (stableSortBy (fun a c => decide (key a ≤ key c)) l).filter (fun a => decide (key a = b))
      = l.filter (fun a => decide (key a = b)) := by
  suffices h : ∀ (l acc : List α), acc.Pairwise (fun a c => decide (key a ≤ key c) = true) →
      (l.foldl (fun acc x => insertSorted (fun a c => decide (key a ≤ key c)) x acc) acc).filter
          (fun a => decide (key a = b))
        = acc.filter (fun a => decide (key a = b)) ++ l.filter (fun a => decide (key a = b)) by
    simpa using h l [] (by simp)
  intro l
  induction l with
  | nil => intro acc hacc; simp
  | cons x l ih =>
    intro acc hacc
    simp only [List.foldl_cons]
    rw [ih _ (insertSorted_pairwise (keyLe_total key) (keyLe_trans key) x hacc)]
    cases hpx : decide (key x = b) with
    | true =>
      rw [filter_insertSorted_pos key b x (of_decide_eq_true hpx) hacc]
      simp [List.filter_cons, hpx]
    | false =>
      rw [filter_insertSorted_neg _ _ x hpx acc]
      simp [List.filter_cons, hpx]

theorem sevKeyLe_total (a b : Option Nat) : (sevKeyLe a b || sevKeyLe b a) = true := by
  cases a <;> cases b <;> simp [sevKeyLe]
  omega

theorem sevKeyLe_trans (a b c : Option Nat) :
    sevKeyLe a b = true → sevKeyLe b c = true → sevKeyLe a c = true := by
  cases a <;> cases b <;> cases c <;> simp [sevKeyLe]
  all_goals omega

/-! ## Claim C1 -/

/-- A concrete diagnostic published by server 1. -/
def c1_d1 : Diagnostic := ⟨⟨⟨0, 0⟩, ⟨0, 1⟩⟩, some 1, "a"⟩

/-- A concrete diagnostic previously held in the cache for server 2. -/
def c1_d2 : Diagnostic := ⟨⟨⟨1, 0⟩, ⟨1, 1⟩⟩, some 2, "b"⟩

/-- A cache that already holds a diagnostic of server 2 for `/f.rs`. -/
def c1_cache : String → List (ServerId × Diagnostic) :=
  fun b => if b = "/f.rs" then [(2, c1_d2)] else []

/-- Claim C1 is false on the code: after server 1 publishes for `/f.rs`,
the cached entries of server 2 for that buffer are not unchanged — they are
gone, because `publish_diagnostics` replaces the whole per-buffer list. -/
theorem c1_counterexample :
    ¬ ((publish_diagnostics_cache c1_cache "/f.rs" 1 [c1_d1] "/f.rs").filter
          (fun p => decide (p.1 = 2))
        = (c1_cache "/f.rs").filter (fun p => decide (p.1 = 2))) := by
  decide

/-- Claim C1, amended: a `publishDiagnostics` from server `S` for buffer
`b` replaces the entire cached diagnostic list of `b` with the newly
published list tagged `S` — diagnostics of every other server for `b` are
discarded — while the entries of every other buffer are unchanged. -/
theorem c1_publish_replaces_whole_buffer_entry
    (cache : String → List (ServerId × Diagnostic)) (buffile : String) (server : ServerId)
    (ds : List Diagnostic) :
    publish_diagnostics_cache cache buffile server ds buffile = ds.map (fun d => (server, d))
    ∧ ∀ b, b ≠ buffile → publish_diagnostics_cache cache buffile server ds b = cache b := by
  constructor
  · simp [publish_diagnostics_cache]
  · intro b hb
    simp [publish_diagnostics_cache, hb]

/-- Witness for the amended C1 at a concrete cache, buffer and publish. -/
theorem c1_witness :
    publish_diagnostics_cache c1_cache "/f.rs" 1 [c1_d1] "/f.rs" = [(1, c1_d1)]
    ∧ publish_diagnostics_cache c1_cache "/f.rs" 1 [c1_d1] "/other" = c1_cache "/other" :=
  ⟨(c1_publish_replaces_whole_buffer_entry c1_cache "/f.rs" 1 [c1_d1]).1,
   (c1_publish_replaces_whole_buffer_entry c1_cache "/f.rs" 1 [c1_d1]).2 "/other" (by decide)⟩

/-! ## Claim C5 -/

/-- A diagnostic without a severity. -/
def c5_dNone : Diagnostic := ⟨⟨⟨0, 0⟩, ⟨0, 1⟩⟩, none, "no severity"⟩

/-- A diagnostic with ERROR severity. -/
def c5_dErr : Diagnostic := ⟨⟨⟨0, 2⟩, ⟨0, 3⟩⟩, some 1, "an error"⟩

/-- Claim C5 is false on the code: with one severity-less diagnostic and
one ERROR, the emitted order is ERROR first, then the severity-less one —
but if the missing severity counted as WARNING, the ERROR (more severe)
would have to come later. `None` sorts below every severity, so after the
descending reversal it is painted last, above ERROR. -/
theorem c5_counterexample :
    ¬ (inline_diagnostics_order [(0, c5_dNone), (0, c5_dErr)]).Pairwise
        (fun a b => b.2.severity.getD 2 ≤ a.2.severity.getD 2) := by
  decide

/-- Claim C5, amended: the `lsp_inline_diagnostics` entries are sorted
descending by the severity key `Option<DiagnosticSeverity>` in which a
missing severity is the least key (hence painted last, on top of
everything), and the emitted entries are a permutation of the cache. -/
theorem c5_inline_severity_order (ds : List (ServerId × Diagnostic)) :
    (inline_diagnostics_order ds).Perm ds
    ∧ (inline_diagnostics_order ds).Pairwise
        (fun a b => sevKeyLe b.2.severity a.2.severity = true) := by
  constructor
  · exact (List.reverse_perm _).trans (stableSortBy_perm _ ds)
  · refine List.pairwise_reverse.mpr ?_
    exact stableSortBy_pairwise
      (fun a b => sevKeyLe_total a.2.severity b.2.severity)
      (fun a b c => sevKeyLe_trans a.2.severity b.2.severity c.2.severity)
      ds

/-! ## Claim C6 -/

/-- A diagnostic carrying an unrecognized severity code. -/
def c6_diag : Diagnostic := ⟨⟨⟨0, 0⟩, ⟨0, 1⟩⟩, some 5, "mystery"⟩

/-- Claim C6 is false on the code: a diagnostic with unrecognized severity
does not increment the warning count (the count stays 0, not 1), and its
line flag carries the empty label rather than the warning label. -/
theorem c6_counterexample :
    (gather_line_flags [(0, c6_diag)] []).warningCount = 0
    ∧ (gather_line_flags [(0, c6_diag)] []).flags = "'1|'"
    ∧ (gather_line_flags [(0, c6_diag)] []).warningCount ≠ 1 := by
  refine ⟨?_, ?_, ?_⟩ <;> decide

/-- Claim C6, amended: in `gather_line_flags` a diagnostic with an
unrecognized severity logs a warning, contributes the *empty* line-flag
label for its line, and increments none of the four counters. -/
theorem c6_unknown_severity_empty_label (sid : ServerId) (d : Diagnostic) (k : Nat)
    (hsev : d.severity = some k) (h1 : k ≠ 1) (h2 : k ≠ 2) (h3 : k ≠ 3) (h4 : k ≠ 4)
    (diags : List (ServerId × Diagnostic)) :
    line_flag_label d.severity = ""
    ∧ severity_counts ((sid, d) :: diags) = severity_counts diags := by
  have hlab : line_flag_label (some k) = "" := by
    rcases k with _ | _ | _ | _ | _ | k
    · rfl
    · exact absurd rfl h1
    · exact absurd rfl h2
    · exact absurd rfl h3
    · exact absurd rfl h4
    · rfl
  refine ⟨by rw [hsev]; exact hlab, ?_⟩
  rcases hsc : severity_counts diags with ⟨e, h, i, w⟩
  rcases k with _ | _ | _ | _ | _ | k
  · simp [severity_counts, hsev, hsc]
  · exact absurd rfl h1
  · exact absurd rfl h2
  · exact absurd rfl h3
  · exact absurd rfl h4
  · simp [severity_counts, hsev, hsc]

/-- Witness for the amended C6 at the concrete unknown-severity input. -/
theorem c6_witness :
    line_flag_label c6_diag.severity = ""
    ∧ severity_counts [(0, c6_diag)] = severity_counts [] :=
  c6_unknown_severity_empty_label 0 c6_diag 5 rfl
    (by decide) (by decide) (by decide) (by decide) []

/-! ## Claim C2 -/

/-- A concrete goto target. -/
def c2_loc : Location := ⟨"/a.rs", ⟨⟨0, 0⟩, ⟨0, 1⟩⟩⟩

/-- Results where the first server answers `Some` with an empty array and
the second answers `Some` with one location. -/
def c2_results : List (ServerId × Option GotoDefinitionResponse) :=
  [(0, some (.array [])), (1, some (.array [c2_loc]))]

/-- Claim C2 is false on the code: server 1 is the first whose response is
`Some` *and* non-empty, so the claim demands the continuation act on it —
but the code selects the first `Some` regardless of emptiness (server 0),
whose empty array makes `goto` emit nothing. -/
theorem c2_counterexample :
    goto_continuation 0 c2_results = none
    ∧ c2_results.find? (fun p => decide ((p.2.map goto_response_locations).getD [] ≠ []))
        = some (1, some (.array [c2_loc])) := by
  constructor <;> decide

/-- Claim C2, amended: the continuation acts on the first server in
registry order whose response is `Some`, even when that response holds no
location; if every response is `None` the fallback also produces no
output, and if the selected `Some` flattens to no locations nothing is
emitted regardless of later servers' answers. -/
theorem c2_first_some_wins (first_server : ServerId)
    (results : List (ServerId × Option GotoDefinitionResponse)) :
    (∀ sid resp, results.find? (fun p => p.2.isSome) = some (sid, resp) →
      goto_continuation first_server results = goto sid resp)
    ∧ (results.find? (fun p => p.2.isSome) = none →
      goto_continuation first_server results = none)
    ∧ (∀ sid resp, results.find? (fun p => p.2.isSome) = some (sid, some resp) →
      goto_response_locations resp = [] →
      goto_continuation first_server results = none) := by
  refine ⟨?_, ?_, ?_⟩
  · intro sid resp h
    simp [goto_continuation, goto_first_some, h]
  · intro h
    simp [goto_continuation, goto_first_some, h, goto]
  · intro sid resp h hempty
    simp [goto_continuation, goto_first_some, h, goto, hempty]

/-- Witness for the amended C2: with a single responding server the
continuation runs `goto` on exactly that server's response. -/
theorem c2_witness :
    goto_continuation 7 [(3, some (.scalar c2_loc))] = goto 3 (some (.scalar c2_loc)) :=
  (c2_first_some_wins 7 [(3, some (.scalar c2_loc))]).1 3 (some (.scalar c2_loc)) (by decide)

/-! ## Claim C7 -/

/-- The entry `goto_locations` produces for one location considered on its
own: the file fetched by the location's own uri, dropped when the file is
unreadable or the 0-based start line is not below its line count. This is
the per-location reading against which the grouped pipeline is compared. -/
def goto_entry_of (conv : Range → List String → KakounePosition)
    (files : String → Option (List String)) (root_path : String) (l : Location) :
    Option GotoEntry :=
  match files l.uri with
  | none => none
  | some contents =>
    if l.range.start.line ≥ contents.length then none
    else some ⟨short_file_path l.uri root_path, (conv l.range contents).line,
      (conv l.range contents).column, contents.getD l.range.start.line ""⟩

theorem chunk_by_uri_eq_nil : ∀ {ls : List Location}, chunk_by_uri ls = [] → ls = []
  | [], _ => rfl
  | l :: ls, h => by
    simp only [chunk_by_uri] at h
    split at h <;> (try split at h) <;> simp_all

theorem nil_not_mem_chunk_by_uri : ∀ (ls : List Location), [] ∉ chunk_by_uri ls := by
  intro ls
  induction ls with
  | nil => simp [chunk_by_uri]
  | cons l ls ih =>
    simp only [chunk_by_uri]
    split
    · simp
    · next heq => rw [heq] at ih; simp at ih
    · next x g gs heq =>
      rw [heq] at ih
      simp only [List.mem_cons, not_or] at ih
      split <;> simp_all

theorem filterMap_cons_toList {α β : Type} (f : α → Option β) (a : α) (l : List α) :
    (a :: l).filterMap f = (f a).toList ++ l.filterMap f := by
  cases h : f a <;> simp [List.filterMap_cons, h]

theorem goto_group_entries_singleton (conv : Range → List String → KakounePosition)
    (files : String → Option (List String)) (root_path : String) (l : Location) :
    goto_group_entries conv files root_path [l]
      = (goto_entry_of conv files root_path l).toList := by
  simp only [goto_group_entries, goto_entry_of]
  cases hf : files l.uri with
  | none => rfl
  | some contents =>
    by_cases hline : l.range.start.line ≥ contents.length <;>
      simp [List.filterMap_cons, hline]

theorem goto_group_entries_cons (conv : Range → List String → KakounePosition)
    (files : String → Option (List String)) (root_path : String)
    (l x : Location) (g : List Location) (huri : l.uri = x.uri) :
    goto_group_entries conv files root_path (l :: x :: g)
      = (goto_entry_of conv files root_path l).toList
          ++ goto_group_entries conv files root_path (x :: g) := by
  simp only [goto_group_entries, goto_entry_of, huri]
  cases hf : files x.uri with
  | none => simp
  | some contents =>
    by_cases hline : l.range.start.line ≥ contents.length <;>
      simp [List.filterMap_cons, hline]

/-- Claim C7, amended: the emitted goto-choices entries are exactly the
input locations processed in input order, each against its own file —
`group_by` only groups *consecutive* equal files, so a file met again
after an interruption starts a new group instead of joining its first one,
and entries stay in input order; locations in unreadable files or with a
start line not below the file's line count are omitted. -/
theorem chunk_by_uri_cons_of_eq {ls : List Location} {x : Location} {g : List Location}
    {gs : List (List Location)} (l : Location) (hc : chunk_by_uri ls = (x :: g) :: gs)
    (huri : l.uri = x.uri) : chunk_by_uri (l :: ls) = (l :: x :: g) :: gs := by
  simp [chunk_by_uri, hc, huri]

theorem chunk_by_uri_cons_of_ne {ls : List Location} {x : Location} {g : List Location}
    {gs : List (List Location)} (l : Location) (hc : chunk_by_uri ls = (x :: g) :: gs)
    (huri : ¬ l.uri = x.uri) : chunk_by_uri (l :: ls) = [l] :: (x :: g) :: gs := by
  simp [chunk_by_uri, hc, huri]

theorem c7_entries_per_location (conv : Range → List String → KakounePosition)
    (files : String → Option (List String)) (root_path : String)
    (locations : List Location) :
    goto_locations_entries conv files root_path locations
      = locations.filterMap (goto_entry_of conv files root_path) := by
  induction locations with
  | nil => rfl
  | cons l ls ih =>
    rcases hc : chunk_by_uri ls with _ | ⟨g, gs⟩
    · have hnil : ls = [] := chunk_by_uri_eq_nil hc
      subst hnil
      simp [goto_locations_entries, chunk_by_uri, goto_group_entries_singleton,
        filterMap_cons_toList]
    · rcases g with _ | ⟨x, g⟩
      · exact absurd (hc ▸ List.mem_cons_self _ _) (nil_not_mem_chunk_by_uri ls)
      · simp only [goto_locations_entries] at ih ⊢
        rw [hc, List.flatMap_cons] at ih
        by_cases huri : l.uri = x.uri
        · rw [chunk_by_uri_cons_of_eq l hc huri, List.flatMap_cons,
            goto_group_entries_cons conv files root_path l x g huri,
            filterMap_cons_toList, List.append_assoc, ih]
        · rw [chunk_by_uri_cons_of_ne l hc huri, List.flatMap_cons,
            goto_group_entries_singleton, filterMap_cons_toList, List.flatMap_cons, ih]

/-- The contiguity property the claim asserts about the emitted entries'
file paths: between two occurrences of the same path only that path may
occur (each file forms at most one contiguous group). -/
def contiguous_groups (ps : List String) : Prop :=
  ∀ i j k : Fin ps.length, i < j → j < k → ps.get i = ps.get k → ps.get j = ps.get i

instance (ps : List String) : Decidable (contiguous_groups ps) := by
  unfold contiguous_groups
  infer_instance

/-- First location in file `/a`. -/
def c7_locA1 : Location := ⟨"/a", ⟨⟨0, 0⟩, ⟨0, 1⟩⟩⟩

/-- A location in file `/b`, interrupting the `/a` run. -/
def c7_locB : Location := ⟨"/b", ⟨⟨0, 0⟩, ⟨0, 1⟩⟩⟩

/-- Second location in file `/a`, after the interruption. -/
def c7_locA2 : Location := ⟨"/a", ⟨⟨0, 2⟩, ⟨0, 3⟩⟩⟩

/-- A concrete position conversion for the C7 counterexample. -/
def c7_conv : Range → List String → KakounePosition :=
  fun r _ => ⟨r.start.line + 1, r.start.character + 1⟩

/-- Readable one-line files `/a` and `/b`. -/
def c7_files : String → Option (List String) :=
  fun u => if u = "/a" then some ["aline"] else if u = "/b" then some ["bline"] else none

/-- Claim C7 is false on the code: for locations in files `/a`, `/b`, `/a`
the emitted entries keep input order `a, b, a`, so file `/a` forms two
separate groups instead of the single contiguous group the claim asserts
(`itertools::group_by` only merges consecutive equal keys). -/
theorem c7_counterexample :
    ¬ contiguous_groups ((goto_locations_entries c7_conv c7_files "/"
        [c7_locA1, c7_locB, c7_locA2]).map (fun e => e.path)) := by
  have h : (goto_locations_entries c7_conv c7_files "/"
      [c7_locA1, c7_locB, c7_locA2]).map (fun e => e.path) = ["a", "b", "a"] := by decide
  rw [h]
  decide

/-! ## Code-action helper lemmas -/

theorem ca_single_path_ne_retry (actions : List (ServerId × CodeActionOrCommand))
    (v : Int) (rs : List (ServerId × Range)) :
    ca_single_path actions ≠ CAOutcome.retry v rs := by
  unfold ca_single_path
  split <;> simp

theorem ca_emit_path_ne_retry (sync : Bool) (params : CAParams)
    (results : List (ServerId × Option (List CodeActionOrCommand)))
    (v : Int) (rs : List (ServerId × Range)) :
    ca_emit_path sync params results ≠ CAOutcome.retry v rs := by
  unfold ca_emit_path
  dsimp only
  split
  · split
    · simp
    · exact ca_single_path_ne_retry _ v rs
    · exact ca_single_path_ne_retry _ v rs
  · split
    · split <;> simp
    · split <;> simp

theorem lookup_mem {β : Type} (k : ServerId) (r : β) :
    ∀ l : List (ServerId × β), l.lookup k = some r → (k, r) ∈ l
  | [], h => by simp [List.lookup] at h
  | (k', b) :: t, h => by
    simp only [List.lookup] at h
    by_cases he : (k == k') = true
    · have hk : k = k' := by simpa using he
      rw [he] at h
      simp only [Option.some.injEq] at h
      simp [hk, h]
    · have he' : (k == k') = false := by simpa using he
      rw [he'] at h
      exact List.mem_cons_of_mem _ (lookup_mem k r t h)

theorem ca_emit_path_sorted_inv (sync : Bool) (params : CAParams)
    (results : List (ServerId × Option (List CodeActionOrCommand))) (a : Bool)
    (out : List (ServerId × CodeActionOrCommand))
    (h : ca_emit_path sync params results = CAOutcome.showActions a out
      ∨ ca_emit_path sync params results = CAOutcome.performActions out) :
    out = sort_code_actions (ca_collect results) := by
  unfold ca_emit_path at h
  dsimp only at h
  split at h
  · split at h
    · rcases h with h | h <;> simp at h
    · rcases h with h | h <;>
        (unfold ca_single_path at h; split at h <;> simp_all)
    · rcases h with h | h <;>
        (unfold ca_single_path at h; split at h <;> simp_all)
  · split at h
    · split at h
      · rcases h with h | h <;> simp at h
      · rcases h with h | h
        · simp at h
        · simpa using h.symm
    · split at h
      · rcases h with h | h <;> simp at h
      · rcases h with h | h
        · simp only [CAOutcome.showActions.injEq] at h
          exact h.2.symm
        · simp at h

/-! ## Claim C3 -/

/-- Claim C3: with an interactive request (`hook = false`), a fresh
document, every responding server answering `Some` of an empty list, and
every requested range having a non-zero start character and an end
character different from the end-of-line sentinel, `editor_code_actions`
re-issues the request with every range widened to whole lines
(start character 0, end character the byte length of the end line pushed
through the server's offset-encoding conversion); and the widened request
can never trigger a further retry, whatever it returns and whatever the
document store then holds. -/
theorem c3_code_action_widened_retry
    (k2l : KakounePosition → List String → OffsetEncoding → Pos)
    (encOf : ServerId → OffsetEncoding) (docs : String → Option Document)
    (buffile : String) (sync : Bool) (params : CAParams) (version : Int)
    (ranges : List (ServerId × Range))
    (results : List (ServerId × Option (List CodeActionOrCommand)))
    (document : Document)
    (hdoc : docs buffile = some document) (hver : document.version = version)
    (hall : ∀ p ∈ results, ∃ r, ranges.lookup p.1 = some r ∧ p.2 = some []
      ∧ r.start.character ≠ 0 ∧ r.endPos.character ≠ EOL_OFFSET) :
    editor_code_actions k2l encOf docs false buffile sync params version ranges results
      = CAOutcome.retry version (widen_ranges k2l encOf document ranges)
    ∧ (∀ p ∈ widen_ranges k2l encOf document ranges, p.2.start.character = 0)
    ∧ ∀ results' : List (ServerId × Option (List CodeActionOrCommand)), results' ≠ [] →
        (∀ p ∈ results', ((widen_ranges k2l encOf document ranges).lookup p.1).isSome) →
        ∀ (docs' : String → Option Document) (v : Int) (rs : List (ServerId × Range)),
          editor_code_actions k2l encOf docs' false buffile sync params version
            (widen_ranges k2l encOf document ranges) results' ≠ CAOutcome.retry v rs := by
  have hzero : ∀ p ∈ widen_ranges k2l encOf document ranges, p.2.start.character = 0 := by
    intro p hp
    simp only [widen_ranges, List.mem_map] at hp
    obtain ⟨q, _, rfl⟩ := hp
    rfl
  have hcond : ca_retry_condition false ranges results = true := by
    unfold ca_retry_condition
    simp only [Bool.not_false, Bool.true_and]
    rw [List.all_eq_true]
    intro p hp
    obtain ⟨r, hr, he, h0, hE⟩ := hall p hp
    rw [hr]
    simp [he, h0, hE]
  refine ⟨?_, hzero, ?_⟩
  · simp [editor_code_actions, hcond, hdoc, hver]
  · intro results' hne hlook docs' v rs
    have hcf : ca_retry_condition false (widen_ranges k2l encOf document ranges) results'
        = false := by
      rcases results' with _ | ⟨q, t⟩
      · exact absurd rfl hne
      · unfold ca_retry_condition
        simp only [Bool.not_false, Bool.true_and]
        refine List.all_eq_false.mpr ⟨q, List.mem_cons_self q t, ?_⟩
        have hq := hlook q (List.mem_cons_self q t)
        obtain ⟨r', hr'⟩ := Option.isSome_iff_exists.mp hq
        rw [hr']
        have h0 := hzero (q.1, r') (lookup_mem q.1 r' _ hr')
        simp only at h0
        simp [h0]
    unfold editor_code_actions
    rw [if_neg (by simp [hcf])]
    exact ca_emit_path_ne_retry sync params results' v rs

/-- A concrete offset-encoding conversion for the C3 witness. -/
def c3_k2l : KakounePosition → List String → OffsetEncoding → Pos :=
  fun p _ _ => ⟨p.line - 1, p.column⟩

/-- Every server uses utf-8 in the C3 witness. -/
def c3_encOf : ServerId → OffsetEncoding := fun _ => .utf8

/-- The fresh document of the C3 witness, version 7. -/
def c3_doc : Document := ⟨["abc"], 7⟩

/-- The C3 witness document store. -/
def c3_docs : String → Option Document := fun b => if b = "/f" then some c3_doc else none

/-- The requested range of the C3 witness: both characters off the
widening boundaries. -/
def c3_range : Range := ⟨⟨0, 3⟩, ⟨0, 5⟩⟩

/-- Interactive parameters without filters. -/
def c3_params : CAParams := ⟨none, false, false⟩

/-- Witness for C3 at a concrete single-server request whose only
response is `Some(vec![])`. -/
theorem c3_witness :
    editor_code_actions c3_k2l c3_encOf c3_docs false "/f" false c3_params 7 [(0, c3_range)]
        [(0, some [])]
      = CAOutcome.retry 7 (widen_ranges c3_k2l c3_encOf c3_doc [(0, c3_range)]) :=
  (c3_code_action_widened_retry c3_k2l c3_encOf c3_docs "/f" false c3_params 7 [(0, c3_range)]
    [(0, some [])] c3_doc (by decide) rfl
    (by
      intro p hp
      simp only [List.mem_singleton] at hp
      subst hp
      exact ⟨c3_range, by decide, rfl, by decide, by decide⟩)).1

/-! ## Claim C4 -/

/-- A concrete quickfix action carrying an edit. -/
def c4_action : CodeActionOrCommand := .codeAction "fix it" (some "quickfix") (some "{edit}") none

/-- Conversion for the C4 scenario (never consulted on this path). -/
def c4_k2l : KakounePosition → List String → OffsetEncoding → Pos :=
  fun p _ _ => ⟨p.line - 1, p.column⟩

/-- Encodings for the C4 scenario. -/
def c4_encOf : ServerId → OffsetEncoding := fun _ => .utf8

/-- The C4 document store: the buffer has already advanced to version 8. -/
def c4_docs : String → Option Document := fun b => if b = "/f" then some ⟨["x"], 8⟩ else none

/-- Interactive parameters without filters. -/
def c4_params : CAParams := ⟨none, false, false⟩

/-- The range captured at dispatch time for the C4 scenario. -/
def c4_range : Range := ⟨⟨0, 3⟩, ⟨0, 5⟩⟩

/-- Claim C4 is false on the code: the reply was dispatched at version 7
and the document is now at version 8, yet because one server returned a
non-empty action list (so no widened retry is attempted) the continuation
emits `lsp-show-code-actions` output instead of dropping the stale
reply — the version is only checked on the retry path. -/
theorem c4_counterexample :
    editor_code_actions c4_k2l c4_encOf c4_docs false "/f" false c4_params 7 [(0, c4_range)]
        [(0, some [c4_action])]
      = CAOutcome.showActions false [(0, c4_action)] := by
  decide

/-- Claim C4, amended: a stale document drops the reply (with a logged
message) only on the path about to issue the widened retry; on every other
result path the document store is not consulted at all, so the outcome is
the same whatever the document version is, and output is emitted as
usual. -/
theorem c4_stale_drop_only_on_retry_path
    (k2l : KakounePosition → List String → OffsetEncoding → Pos)
    (encOf : ServerId → OffsetEncoding) (docs : String → Option Document)
    (hook : Bool) (buffile : String) (sync : Bool) (params : CAParams) (version : Int)
    (ranges : List (ServerId × Range))
    (results : List (ServerId × Option (List CodeActionOrCommand)))
    (document : Document)
    (hcond : ca_retry_condition hook ranges results = true)
    (hdoc : docs buffile = some document)
    (hver : document.version ≠ version) :
    editor_code_actions k2l encOf docs hook buffile sync params version ranges results
      = CAOutcome.dropStale
    ∧ ∀ (ranges' : List (ServerId × Range))
        (results' : List (ServerId × Option (List CodeActionOrCommand)))
        (docs₁ docs₂ : String → Option Document),
        ca_retry_condition hook ranges' results' = false →
        editor_code_actions k2l encOf docs₁ hook buffile sync params version ranges' results'
          = editor_code_actions k2l encOf docs₂ hook buffile sync params version ranges' results' := by
  constructor
  · simp [editor_code_actions, hcond, hdoc, hver]
  · intro ranges' results' docs₁ docs₂ hcf
    unfold editor_code_actions
    rw [if_neg (by simp [hcf]), if_neg (by simp [hcf])]

/-- Witness for the amended C4: the stale reply that would retry is
dropped. -/
theorem c4_witness :
    editor_code_actions c4_k2l c4_encOf c4_docs false "/f" false c4_params 7 [(0, c4_range)]
        [(0, some [])]
      = CAOutcome.dropStale :=
  (c4_stale_drop_only_on_retry_path c4_k2l c4_encOf c4_docs false "/f" false c4_params 7
    [(0, c4_range)] [(0, some [])] ⟨["x"], 8⟩ (by decide) (by decide) (by decide)).1

/-! ## Claim C8 -/

/-- Claim C8: whenever the interactive (non-synchronous, non-regex) path
emits its action list — `lsp-show-code-actions` or
`lsp-perform-code-action` — that list is a stable permutation of the
collected `(server, action)` list under the bucket order: it is a
permutation, bucket keys are non-decreasing along it, and restricting both
lists to any single bucket yields identical sequences (stability). -/
theorem c8_stable_bucket_sort
    (k2l : KakounePosition → List String → OffsetEncoding → Pos)
    (encOf : ServerId → OffsetEncoding) (docs : String → Option Document)
    (hook : Bool) (buffile : String) (sync : Bool) (params : CAParams) (version : Int)
    (ranges : List (ServerId × Range))
    (results : List (ServerId × Option (List CodeActionOrCommand))) (a : Bool)
    (out : List (ServerId × CodeActionOrCommand))
    (h : editor_code_actions k2l encOf docs hook buffile sync params version ranges results
          = CAOutcome.showActions a out
      ∨ editor_code_actions k2l encOf docs hook buffile sync params version ranges results
          = CAOutcome.performActions out) :
    out.Perm (ca_collect results)
    ∧ out.Pairwise (fun p q => ca_kind_bucket p.2 ≤ ca_kind_bucket q.2)
    ∧ ∀ b, out.filter (fun p => decide (ca_kind_bucket p.2 = b))
        = (ca_collect results).filter (fun p => decide (ca_kind_bucket p.2 = b)) := by
  have hout : out = sort_code_actions (ca_collect results) := by
    unfold editor_code_actions at h
    by_cases hc : ca_retry_condition hook ranges results = true
    · rw [if_pos hc] at h
      cases hd : docs buffile with
      | none => rw [hd] at h; rcases h with h | h <;> simp at h
      | some document =>
        rw [hd] at h
        by_cases hv : document.version ≠ version
        · rcases h with h | h <;> simp [hv] at h
        · rcases h with h | h <;> simp [hv] at h
    · rw [if_neg hc] at h
      exact ca_emit_path_sorted_inv sync params results a out h
  subst hout
  refine ⟨stableSortBy_perm _ _, ?_, ?_⟩
  · have hp := @stableSortBy_pairwise (ServerId × CodeActionOrCommand)
      (fun p q => decide (ca_kind_bucket p.2 ≤ ca_kind_bucket q.2))
      (fun p q => keyLe_total (fun p : ServerId × CodeActionOrCommand => ca_kind_bucket p.2) p q)
      (fun p q r => keyLe_trans (fun p : ServerId × CodeActionOrCommand => ca_kind_bucket p.2) p q r)
      (ca_collect results)
    exact hp.imp (fun hab => of_decide_eq_true hab)
  · intro b
    exact filter_stableSortBy (fun p => ca_kind_bucket p.2) b (ca_collect results)

/-- An action with an unrecognized kind (last bucket). -/
def c8_actA : CodeActionOrCommand := .codeAction "other kind" (some "weird") none none

/-- A quickfix action (first bucket), collected after `c8_actA`. -/
def c8_actB : CodeActionOrCommand := .codeAction "fix" (some "quickfix") none none

/-- One server returning the two actions, unrecognized kind first. -/
def c8_results : List (ServerId × Option (List CodeActionOrCommand)) :=
  [(0, some [c8_actA, c8_actB])]

/-- Conversion for the C8 witness (not consulted on the emit path). -/
def c8_k2l : KakounePosition → List String → OffsetEncoding → Pos :=
  fun p _ _ => ⟨p.line - 1, p.column⟩

/-- Encodings for the C8 witness. -/
def c8_encOf : ServerId → OffsetEncoding := fun _ => .utf8

/-- Document store for the C8 witness (not consulted on the emit path). -/
def c8_docs : String → Option Document := fun _ => none

/-- Interactive parameters without filters. -/
def c8_params : CAParams := ⟨none, false, false⟩

/-- Witness for C8: the quickfix ends up before the unrecognized-kind
action, the result is a permutation of the collected list, and the
first-bucket slice is preserved. -/
theorem c8_witness :
    ([(0, c8_actB), (0, c8_actA)] : List (ServerId × CodeActionOrCommand)).Perm
        (ca_collect c8_results)
    ∧ ([(0, c8_actB), (0, c8_actA)] : List (ServerId × CodeActionOrCommand)).Pairwise
        (fun p q => ca_kind_bucket p.2 ≤ ca_kind_bucket q.2)
    ∧ ([(0, c8_actB), (0, c8_actA)] : List (ServerId × CodeActionOrCommand)).filter
          (fun p => decide (ca_kind_bucket p.2 = 0))
        = (ca_collect c8_results).filter (fun p => decide (ca_kind_bucket p.2 = 0)) :=
  have h := c8_stable_bucket_sort c8_k2l c8_encOf c8_docs true "/f" false c8_params 7 []
    c8_results false [(0, c8_actB), (0, c8_actA)] (Or.inl (by decide))
  ⟨h.1, h.2.1, h.2.2 0⟩

/-! ## Claim C9 -/

/-- Claim C9: `editor_range_formatting` answers every invocation with
exactly one editor command (the embedding is a total function into the
emitted script): the command produced by applying the edits when there is
one, and exactly the script `nop` when the document is missing or the edit
list is empty (the latter under the spec-modelled fact that
`apply_text_edits_to_buffer` yields no command for an empty edit list —
`src/text_edit.rs` is not among the sources). -/
theorem c9_range_formatting_single_emission
    (apply_text_edits_to_buffer : List TextEdit → List String → OffsetEncoding → Option String)
    (encOf : ServerId → OffsetEncoding) (docs : String → Option Document)
    (buffile : String) (server_name : ServerId) (text_edits : List TextEdit)
    (hempty : ∀ text enc, apply_text_edits_to_buffer [] text enc = none) :
    (∀ document cmd, docs buffile = some document →
      apply_text_edits_to_buffer text_edits document.text (encOf server_name) = some cmd →
      editor_range_formatting apply_text_edits_to_buffer encOf docs buffile server_name
        text_edits = cmd)
    ∧ (docs buffile = none →
      editor_range_formatting apply_text_edits_to_buffer encOf docs buffile server_name
        text_edits = "nop")
    ∧ editor_range_formatting apply_text_edits_to_buffer encOf docs buffile server_name []
        = "nop" := by
  refine ⟨?_, ?_, ?_⟩
  · intro document cmd hd ha
    simp [editor_range_formatting, hd, ha]
  · intro hd
    simp [editor_range_formatting, hd]
  · cases hd : docs buffile with
    | none => simp [editor_range_formatting, hd]
    | some document => simp [editor_range_formatting, hd, hempty]

/-- A concrete edit applier for the C9 witness: no edits, no command. -/
def c9_apply : List TextEdit → List String → OffsetEncoding → Option String :=
  fun edits _ _ => if edits.isEmpty then none else some "apply-edits"

/-- Encodings for the C9 witness. -/
def c9_encOf : ServerId → OffsetEncoding := fun _ => .utf8

/-- The C9 witness document store. -/
def c9_docs : String → Option Document := fun b => if b = "/f" then some ⟨["x"], 1⟩ else none

/-- A concrete text edit. -/
def c9_edit : TextEdit := ⟨⟨⟨0, 0⟩, ⟨0, 1⟩⟩, "y"⟩

/-- Witness for C9: one command when edits apply, `nop` for a missing
document, `nop` for the empty edit list. -/
theorem c9_witness :
    editor_range_formatting c9_apply c9_encOf c9_docs "/f" 0 [c9_edit] = "apply-edits"
    ∧ editor_range_formatting c9_apply c9_encOf c9_docs "/g" 0 [c9_edit] = "nop"
    ∧ editor_range_formatting c9_apply c9_encOf c9_docs "/f" 0 [] = "nop" :=
  ⟨(c9_range_formatting_single_emission c9_apply c9_encOf c9_docs "/f" 0 [c9_edit]
      (fun _ _ => rfl)).1 ⟨["x"], 1⟩ "apply-edits" (by decide) (by decide),
   (c9_range_formatting_single_emission c9_apply c9_encOf c9_docs "/g" 0 [c9_edit]
      (fun _ _ => rfl)).2.1 (by decide),
   (c9_range_formatting_single_emission c9_apply c9_encOf c9_docs "/f" 0 []
      (fun _ _ => rfl)).2.2⟩

/-! ## Claim C10 -/

/-- Claim C10: when a `textDocument/codeLens` reply arrives for a buffer
no longer present in the document store, `editor_code_lens` removes that
buffer's entry from the code-lens cache, emits no editor command, and
leaves every other buffer's cache entry unchanged. -/
theorem c10_missing_doc_removes_lens_cache
    (docs : String → Option Document)
    (code_lenses : String → Option (List (ServerId × CodeLens))) (buffile : String)
    (results : List (ServerId × Option (List CodeLens)))
    (hdoc : docs buffile = none) :
    (editor_code_lens docs code_lenses buffile results).1 buffile = none
    ∧ (editor_code_lens docs code_lenses buffile results).2 = none
    ∧ ∀ b, b ≠ buffile →
        (editor_code_lens docs code_lenses buffile results).1 b = code_lenses b := by
  refine ⟨?_, ?_, ?_⟩
  · simp [editor_code_lens, hdoc]
  · simp [editor_code_lens, hdoc]
  · intro b hb
    simp [editor_code_lens, hdoc, hb]

/-- A concrete unresolved lens. -/
def c10_lens : CodeLens := ⟨⟨⟨0, 0⟩, ⟨0, 1⟩⟩, none⟩

/-- A lens cache holding entries for `/f` and a different buffer `/g`. -/
def c10_cache : String → Option (List (ServerId × CodeLens)) :=
  fun b => if b = "/f" then some [(0, c10_lens)] else
    if b = "/g" then some [(1, c10_lens)] else none

/-- A document store without any buffer. -/
def c10_docs : String → Option Document := fun _ => none

/-- Witness for C10: the reply for the vanished `/f` wipes its cache
entry, emits nothing, and leaves `/g` untouched. -/
theorem c10_witness :
    (editor_code_lens c10_docs c10_cache "/f" [(0, some [c10_lens])]).1 "/f" = none
    ∧ (editor_code_lens c10_docs c10_cache "/f" [(0, some [c10_lens])]).2 = none
    ∧ (editor_code_lens c10_docs c10_cache "/f" [(0, some [c10_lens])]).1 "/g" = c10_cache "/g" :=
  have h := c10_missing_doc_removes_lens_cache c10_docs c10_cache "/f" [(0, some [c10_lens])] rfl
  ⟨h.1, h.2.1, h.2.2 "/g" (by decide)⟩

end KakouneLsp

